import Mathlib

/-!
A shallow embedding of the `redis_easy` server core (the protocol decoder,
the typed key-value store with lazy expiration, and the leaderboard), together
with theorems checking the natural-language specification against it.

Conventions of the embedding:
* Go `time.Time` instants are modelled as `Nat` milliseconds; the zero value of
  `time.Time` (meaning "never expires") is modelled as `0`, and `time.Now()` is
  an explicit `now : Nat` parameter.
* The process-wide `sync.Map` caches are modelled as association lists with
  no duplicate keys; `Load` / `Store` / `Delete` are `loadKey` / `storeKey` /
  `deleteKey`.  `storeKey` moves the updated binding to the end of the list,
  which is extensionally the same map as Go's in-place replacement.
* Go `map[string]struct{}` sets and `map[string]string` hashes are modelled as
  duplicate-free lists of members / field-value pairs.
* Each `handleX` function mirrors the Go function of the same name: it takes
  the decoded argument vector, the current time and the store, and returns the
  reply together with the new store.  Replies are modelled structurally (the
  five RESP reply shapes) rather than as encoded bytes.
-/

namespace RedisEasy

/-- Go `DataType` and its four constants. -/
inductive DataType where
  | StringType
  | ListType
  | SetType
  | HashType
  deriving DecidableEq, Repr

/-- The dynamic payload of an entry.  Go stores `interface{}` plus a separate
`Type` tag that every handler checks before down-casting; since the handlers
only ever store matching tag/payload pairs, the pair is modelled as a closed
tagged variant. -/
inductive Value where
  | str (s : String)
  | list (l : List String)
  | set (members : List String)
  | hash (fields : List (String × String))
  deriving DecidableEq, Repr

/-- The `Type` tag a payload carries. -/
def Value.kind : Value → DataType
  | .str _ => .StringType
  | .list _ => .ListType
  | .set _ => .SetType
  | .hash _ => .HashType

/-- Go `Entry`: payload plus absolute expiration instant
(`expireAt = 0` models the zero `time.Time`, i.e. never expires). -/
structure Entry where
  value : Value
  expireAt : Nat
  deriving DecidableEq, Repr

/-- Go `(*Entry).isExpired`: the zero instant never expires; otherwise the
entry is dead once `time.Now().After(ExpireAt)`, i.e. strictly after. -/
def Entry.isExpired (e : Entry) (now : Nat) : Bool :=
  if e.expireAt = 0 then false else decide (e.expireAt < now)

/-- The global `cache` map, keyed by `string`. -/
abbrev Store := List (String × Entry)

/-- `cache.Load key`. -/
def loadKey : Store → String → Option Entry
  | [], _ => none
  | (k2, e) :: rest, k => if k2 = k then some e else loadKey rest k

/-- `cache.Delete key`. -/
def deleteKey : Store → String → Store
  | [], _ => []
  | (k2, e) :: rest, k => if k2 = k then deleteKey rest k else (k2, e) :: deleteKey rest k

/-- `cache.Store key entry` (replacing any old binding). -/
def storeKey (st : Store) (k : String) (e : Entry) : Store :=
  deleteKey st k ++ [(k, e)]

/-- A decimal digit sequence to a `Nat` (`none` on a non-digit). -/
def digitsLoop : List Char → Nat → Option Nat
  | [], acc => some acc
  | c :: rest, acc =>
    if c.isDigit then digitsLoop rest (acc * 10 + (c.toNat - 48)) else none

/-- A non-empty all-digit character list to a `Nat`. -/
def digitsToNat : List Char → Option Nat
  | [] => none
  | cs => digitsLoop cs 0

/-- Go `strconv.Atoi`: optional sign followed by at least one digit
(64-bit overflow, which `Atoi` also rejects, is not modelled). -/
def goAtoi (s : String) : Option Int :=
  match s.data with
  | '+' :: rest => (digitsToNat rest).map Int.ofNat
  | '-' :: rest => (digitsToNat rest).map (fun n => -(n : Int))
  | cs => (digitsToNat cs).map Int.ofNat

/-- Go `strings.ToUpper`, restricted to the ASCII command names the server
compares against (`String.toUpper` itself does not reduce inside the
kernel, so the per-character map is spelled out). -/
def goToUpper (s : String) : String :=
  ⟨s.data.map Char.toUpper⟩

instance instDecidableArrow2 {p q : Prop} [dp : Decidable p]
    [dq : Decidable q] : Decidable (p → q) :=
  match dp with
  | Decidable.isFalse hp => Decidable.isTrue fun h => absurd h hp
  | Decidable.isTrue hp =>
    match dq with
    | Decidable.isTrue hq => Decidable.isTrue fun _ => hq
    | Decidable.isFalse hq => Decidable.isFalse fun h => hq (h hp)

/-- The five RESP reply shapes the server writes, modelled structurally:
`status s` is `+s`, `err s` is `-s`, `int n` is `:n`, `bulk s` is a bulk
string, `nilBulk` is `$-1`, and `array` is `*n` followed by the elements. -/
inductive Reply where
  | status (s : String)
  | err (s : String)
  | int (n : Int)
  | bulk (s : String)
  | nilBulk
  | array (elems : List Reply)
  deriving Repr

/-- The WRONGTYPE error reply every type-checking handler writes. -/
def wrongTypeErr : Reply :=
  .err "ERR WRONGTYPE Operation against a key holding the wrong kind of value"

/-- The get-and-check prologue of `handleLPush` (source lines 356-368): load
the entry; an expired entry is deleted and treated as absent; a non-expired
entry of the wrong kind aborts with `none`; otherwise the current list (empty
when absent) is returned together with the possibly-updated store. -/
def lpushLoadPhase (st : Store) (key : String) (now : Nat) :
    Store × Option (List String) :=
  match loadKey st key with
  | none => (st, some [])
  | some e =>
    if e.isExpired now then (deleteKey st key, some [])
    else
      match e.value with
      | .list l => (st, some l)
      | _ => (st, none)

/-- Go `handleLPush`: prepend the new elements as a block
(`list = append(newElems, list...)`), store the result with a zero
`ExpireAt`, and reply with the new length. -/
def handleLPush : List String → Nat → Store → Reply × Store
  | _ :: key :: v :: vs, now, st =>
    match lpushLoadPhase st key now with
    | (st1, none) => (wrongTypeErr, st1)
    | (st1, some list0) =>
      let newList := (v :: vs) ++ list0
      (.int newList.length, storeKey st1 key ⟨.list newList, 0⟩)
  | _, _, st => (.err "ERR wrong number of arguments for LPUSH", st)

/-- Go `handleGet`: nil bulk when absent or expired (the expired entry is
deleted on access), WRONGTYPE on a non-string entry, else the stored string. -/
def handleGet : List String → Nat → Store → Reply × Store
  | [_, key], now, st =>
    match loadKey st key with
    | none => (.nilBulk, st)
    | some e =>
      if e.isExpired now then (.nilBulk, deleteKey st key)
      else
        match e.value with
        | .str s => (.bulk s, st)
        | _ => (wrongTypeErr, st)
  | _, _, st => (.err "ERR wrong number of arguments for GET", st)

/-- Go `handleSet`: parse the optional `EX`/`PX` pair when at least five
arguments are present (any other option word is silently ignored, exactly as
in the source); a non-positive duration means no expiry; always store a
String entry.  Durations are in milliseconds (`EX n` is `n * 1000`). -/
def handleSet : List String → Nat → Store → Reply × Store
  | _ :: key :: value :: opts, now, st =>
    let durE : Except Reply Int :=
      match opts with
      | o1 :: o2 :: _ =>
        if goToUpper o1 = "EX" then
          match goAtoi o2 with
          | none => .error (.err "ERR invalid EX expiration value")
          | some secs => .ok (secs * 1000)
        else if goToUpper o1 = "PX" then
          match goAtoi o2 with
          | none => .error (.err "ERR invalid PX expiration value")
          | some ms => .ok ms
        else .ok 0
      | _ => .ok 0
    match durE with
    | .error r => (r, st)
    | .ok dur =>
      let expireAt : Nat := if 0 < dur then now + dur.toNat else 0
      (.status "OK", storeKey st key ⟨.str value, expireAt⟩)
  | _, _, st => (.err "ERR wrong number of arguments for SET", st)

/-- One iteration of `handleDel`'s loop over the argument keys: a present key
is always removed, but only a non-expired one is counted. -/
def delStep (now : Nat) (acc : Store × Nat) (key : String) : Store × Nat :=
  match loadKey acc.1 key with
  | none => acc
  | some e =>
    if e.isExpired now then (deleteKey acc.1 key, acc.2)
    else (deleteKey acc.1 key, acc.2 + 1)

/-- Go `handleDel`: fold `delStep` over the listed keys and reply the count. -/
def handleDel : List String → Nat → Store → Reply × Store
  | _ :: k :: ks, now, st =>
    let p := (k :: ks).foldl (delStep now) (st, 0)
    (.int p.2, p.1)
  | _, _, st => (.err "ERR wrong number of arguments for DEL", st)

/-- Go `handleTTL`: `-2` when absent or expired, `-1` when the entry never
expires, else the whole remaining seconds clamped to be non-negative
(`expireAt` and `now` are in milliseconds, and `Nat` subtraction already
truncates at zero exactly like the source's clamp). -/
def handleTTL : List String → Nat → Store → Reply × Store
  | [_, key], now, st =>
    match loadKey st key with
    | none => (.int (-2), st)
    | some e =>
      if e.isExpired now then (.int (-2), deleteKey st key)
      else if e.expireAt = 0 then (.int (-1), st)
      else (.int ((e.expireAt - now) / 1000), st)
  | _, _, st => (.err "ERR wrong number of arguments for TTL", st)

/-- Go `handleLPop`: pop the head; delete the key when the remainder is
empty, otherwise store the remainder back reusing the entry (so the
expiration instant is kept). -/
def handleLPop : List String → Nat → Store → Reply × Store
  | [_, key], now, st =>
    match loadKey st key with
    | none => (.nilBulk, st)
    | some e =>
      if e.isExpired now then (.nilBulk, deleteKey st key)
      else
        match e.value with
        | .list l =>
          match l with
          | [] => (.nilBulk, st)
          | popped :: rest =>
            if rest.isEmpty then (.bulk popped, deleteKey st key)
            else (.bulk popped, storeKey st key ⟨.list rest, e.expireAt⟩)
        | _ => (wrongTypeErr, st)
  | _, _, st => (.err "ERR wrong number of arguments for LPOP", st)

/-- One iteration of `handleSAdd`'s loop: insert a member and count it when
it was not already present. -/
def saddInsert (p : List String × Nat) (m : String) : List String × Nat :=
  if m ∈ p.1 then p else (p.1 ++ [m], p.2 + 1)

/-- The get-and-check prologue of `handleSAdd` (an expired entry is deleted
and the set recreated; `none` aborts with WRONGTYPE), i.e. the value the
`set` variable holds after source lines 426-440. -/
def saddLoadPhase (st : Store) (key : String) (now : Nat) :
    Store × Option (List String) :=
  match loadKey st key with
  | none => (st, some [])
  | some e =>
    if e.isExpired now then (deleteKey st key, some [])
    else
      match e.value with
      | .set s => (st, some s)
      | _ => (st, none)

/-- The mutate-and-store epilogue of `handleSAdd` (source lines 441-453):
insert every member, store the set with a zero `ExpireAt` (the new `Entry`
literal omits the field), and return the number newly added. -/
def saddStorePhase (st : Store) (key : String) (mems : List String)
    (set0 : List String) : Store × Nat :=
  let p := mems.foldl saddInsert (set0, 0)
  (storeKey st key ⟨.set p.1, 0⟩, p.2)

/-- Go `handleSAdd` as one sequential command: the load phase directly
followed by the store phase.  (In the server the two phases are separate
atomic accesses to the shared map, with no lock held in between.) -/
def handleSAdd : List String → Nat → Store → Reply × Store
  | _ :: key :: m :: ms, now, st =>
    match saddLoadPhase st key now with
    | (st1, none) => (wrongTypeErr, st1)
    | (st1, some s0) =>
      let p := saddStorePhase st1 key (m :: ms) s0
      (.int p.2, p.1)
  | _, _, st => (.err "ERR wrong number of arguments for SADD", st)

/-- Go `handleSMembers`: all members as an array (empty when absent or
expired), WRONGTYPE on a non-set entry. -/
def handleSMembers : List String → Nat → Store → Reply × Store
  | [_, key], now, st =>
    match loadKey st key with
    | none => (.array [], st)
    | some e =>
      if e.isExpired now then (.array [], deleteKey st key)
      else
        match e.value with
        | .set s => (.array (s.map .bulk), st)
        | _ => (wrongTypeErr, st)
  | _, _, st => (.err "ERR wrong number of arguments for SMEMBERS", st)

/-- One iteration of `handleSRem`'s loop: remove a member and count it when
it was present. -/
def sremStep (p : List String × Nat) (m : String) : List String × Nat :=
  if m ∈ p.1 then (p.1.filter (fun x => x != m), p.2 + 1) else p

/-- Go `handleSRem`: absent key replies `0`; the key is deleted when the set
is emptied, otherwise the set is stored back reusing the entry. -/
def handleSRem : List String → Nat → Store → Reply × Store
  | _ :: key :: m :: ms, now, st =>
    match loadKey st key with
    | none => (.int 0, st)
    | some e =>
      if e.isExpired now then (.int 0, deleteKey st key)
      else
        match e.value with
        | .set s =>
          let p := (m :: ms).foldl sremStep (s, 0)
          if p.1.isEmpty then (.int p.2, deleteKey st key)
          else (.int p.2, storeKey st key ⟨.set p.1, e.expireAt⟩)
        | _ => (wrongTypeErr, st)
  | _, _, st => (.err "ERR wrong number of arguments for SREM", st)

/-- Go map field lookup `hash[field]`. -/
def hashGet (h : List (String × String)) (f : String) : Option String :=
  match h with
  | [] => none
  | (f2, v) :: rest => if f2 = f then some v else hashGet rest f

/-- Go map assignment `hash[field] = value`: replace in place when present,
append otherwise. -/
def hashSet (h : List (String × String)) (f v : String) :
    List (String × String) :=
  match h with
  | [] => [(f, v)]
  | (f2, v2) :: rest =>
    if f2 = f then (f2, v) :: rest else (f2, v2) :: hashSet rest f v

/-- The get-and-check prologue of `handleHSet` (mirrors `saddLoadPhase`). -/
def hsetLoadPhase (st : Store) (key : String) (now : Nat) :
    Store × Option (List (String × String)) :=
  match loadKey st key with
  | none => (st, some [])
  | some e =>
    if e.isExpired now then (deleteKey st key, some [])
    else
      match e.value with
      | .hash h => (st, some h)
      | _ => (st, none)

/-- Go `handleHSet`: reply `1` when the field is new and `0` when it already
existed (overwritten either way); the stored entry again has a zero
`ExpireAt`. -/
def handleHSet : List String → Nat → Store → Reply × Store
  | [_, key, field, value], now, st =>
    match hsetLoadPhase st key now with
    | (st1, none) => (wrongTypeErr, st1)
    | (st1, some h) =>
      let existed := (hashGet h field).isSome
      (.int (if existed then 0 else 1),
        storeKey st1 key ⟨.hash (hashSet h field value), 0⟩)
  | _, _, st => (.err "ERR wrong number of arguments for HSET", st)

/-- Go `handleHGet`: nil bulk when the key or the field is absent. -/
def handleHGet : List String → Nat → Store → Reply × Store
  | [_, key, field], now, st =>
    match loadKey st key with
    | none => (.nilBulk, st)
    | some e =>
      if e.isExpired now then (.nilBulk, deleteKey st key)
      else
        match e.value with
        | .hash h =>
          match hashGet h field with
          | none => (.nilBulk, st)
          | some v => (.bulk v, st)
        | _ => (wrongTypeErr, st)
  | _, _, st => (.err "ERR wrong number of arguments for HGET", st)

/-- One iteration of `handleHDel`'s loop: delete a field and count it when
it was present. -/
def hdelStep (p : List (String × String) × Nat) (f : String) :
    List (String × String) × Nat :=
  if (hashGet p.1 f).isSome then
    (p.1.filter (fun q => q.1 != f), p.2 + 1)
  else p

/-- Go `handleHDel`: absent key replies `0`; the key is deleted when the
hash is emptied, otherwise the hash is stored back reusing the entry. -/
def handleHDel : List String → Nat → Store → Reply × Store
  | _ :: key :: f :: fs, now, st =>
    match loadKey st key with
    | none => (.int 0, st)
    | some e =>
      if e.isExpired now then (.int 0, deleteKey st key)
      else
        match e.value with
        | .hash h =>
          let p := (f :: fs).foldl hdelStep (h, 0)
          if p.1.isEmpty then (.int p.2, deleteKey st key)
          else (.int p.2, storeKey st key ⟨.hash p.1, e.expireAt⟩)
        | _ => (wrongTypeErr, st)
  | _, _, st => (.err "ERR wrong number of arguments for HDEL", st)

/-- The index arithmetic of `handleLRange` (source lines 677-704), applied
once the list has been fetched: resolve negative indices from the end, clamp
negatives to `0`, reply empty when the start is past the end, clamp the stop
to the last index, reply empty when start exceeds stop, else slice
inclusively. -/
def lrangeSlice (l : List String) (startIdx stopIdx : Int) : List String :=
  let n : Int := l.length
  let s1 := if startIdx < 0 then n + startIdx else startIdx
  let e1 := if stopIdx < 0 then n + stopIdx else stopIdx
  let s2 := if s1 < 0 then 0 else s1
  let e2 := if e1 < 0 then 0 else e1
  if n - 1 < s2 then []
  else
    let e3 := if n - 1 < e2 then n - 1 else e2
    if e3 < s2 then []
    else (l.drop s2.toNat).take (e3 + 1 - s2).toNat

/-- Go `handleLRange`: parse both indices first (joint error), then the usual
get-and-check, then `lrangeSlice`. -/
def handleLRange : List String → Nat → Store → Reply × Store
  | [_, key, a, b], now, st =>
    match goAtoi a, goAtoi b with
    | some s, some t =>
      match loadKey st key with
      | none => (.array [], st)
      | some e =>
        if e.isExpired now then (.array [], deleteKey st key)
        else
          match e.value with
          | .list l => (.array ((lrangeSlice l s t).map .bulk), st)
          | _ => (wrongTypeErr, st)
    | _, _ => (.err "ERR value is not an integer or out of range", st)
  | _, _, st => (.err "ERR wrong number of arguments for LRANGE", st)

/-! ### Leaderboard -/

/-- The global `leaderboard` map: user identifier to score. -/
abbrev LB := List (String × Int)

/-- `leaderboard.Store user score` (replace any old binding). -/
def lbStore (lb : LB) (u : String) (s : Int) : LB :=
  match lb with
  | [] => [(u, s)]
  | (u2, s2) :: rest =>
    if u2 = u then (u2, s) :: rest else (u2, s2) :: lbStore rest u s

/-- Go `handleLBAdd`: parse the score (non-integer is an error with no
mutation), clamp it into `[0, 10000]` by the two-sided `if`, store
unconditionally, reply `+OK`. -/
def handleLBAdd : List String → LB → Reply × LB
  | [_, user, scoreStr], lb =>
    match goAtoi scoreStr with
    | none => (.err "ERR score must be an integer", lb)
    | some score =>
      let clamped := if 10000 < score then 10000 else if score < 0 then 0 else score
      (.status "OK", lbStore lb user clamped)
  | _, lb => (.err "ERR wrong number of arguments for LBADD", lb)

/-- The comparison `handleLBTop` sorts by (the reflexive closure of its
`sort.Slice` comparator): higher score first, ties broken by user identifier
ascending.  This is a linear order on pairs. -/
def lbLe (a b : String × Int) : Prop :=
  b.2 < a.2 ∨ (a.2 = b.2 ∧ a.1 ≤ b.1)

instance : DecidableRel lbLe := fun a b => by
  unfold lbLe; infer_instance

instance : IsTotal (String × Int) lbLe where
  total a b := by
    unfold lbLe
    rcases lt_trichotomy a.2 b.2 with h | h | h
    · exact .inr (.inl h)
    · rcases le_total a.1 b.1 with h2 | h2
      · exact .inl (.inr ⟨h, h2⟩)
      · exact .inr (.inr ⟨h.symm, h2⟩)
    · exact .inl (.inl h)

instance : IsTrans (String × Int) lbLe where
  trans a b c hab hbc := by
    unfold lbLe at *
    rcases hab with h1 | ⟨h1, h1u⟩ <;> rcases hbc with h2 | ⟨h2, h2u⟩
    · exact .inl (h2.trans h1)
    · exact .inl (h2 ▸ h1)
    · exact .inl (h1 ▸ h2)
    · exact .inr ⟨h1.trans h2, h1u.trans h2u⟩

/-- The sorting step of `handleLBTop`.  `sort.Slice` with the source's strict
comparator produces the unique permutation that is pairwise `lbLe`-ordered
(`lbLe` is a linear order on the pairs, and the users collected from the map
are distinct), so insertion sort by `lbLe` is the same function. -/
def lbSort (lb : LB) : LB :=
  lb.insertionSort lbLe

/-- The reply loop of `handleLBTop`: `[user1, score1, user2, score2, ...]`
with each score rendered in decimal (`strconv.Itoa`). -/
def flattenLB : List (String × Int) → List Reply
  | [] => []
  | (u, s) :: rest => .bulk u :: .bulk (toString s) :: flattenLB rest

/-- Go `handleLBTop`: `n` must parse and be positive, else one fixed error;
sort all entries, keep the first `min n count`, flatten. -/
def handleLBTop : List String → LB → Reply × LB
  | [_, nStr], lb =>
    match goAtoi nStr with
    | none => (.err "ERR N must be a positive integer", lb)
    | some n =>
      if n ≤ 0 then (.err "ERR N must be a positive integer", lb)
      else
        let sorted := lbSort lb
        (.array (flattenLB (sorted.take (min n.toNat lb.length))), lb)
  | _, lb => (.err "ERR wrong number of arguments for LBTOP", lb)

/-! ### Dispatcher -/

/-- The command switch of `handleConnection` (source lines 113-151): the name
is upper-cased, each recognized command is routed to its handler, `QUIT`
replies `+OK`, anything else is an unknown-command error.  The connection
loop never dispatches an empty argument vector (it skips those), so the `[]`
case is an arbitrary no-op. -/
def dispatch : List String → Nat → Store × LB → Reply × (Store × LB)
  | [], _, s => (.status "", s)
  | args@(cmd :: _), now, (st, lb) =>
    match goToUpper cmd with
    | "GET" => let r := handleGet args now st; (r.1, r.2, lb)
    | "SET" => let r := handleSet args now st; (r.1, r.2, lb)
    | "DEL" => let r := handleDel args now st; (r.1, r.2, lb)
    | "TTL" => let r := handleTTL args now st; (r.1, r.2, lb)
    | "LPUSH" => let r := handleLPush args now st; (r.1, r.2, lb)
    | "LPOP" => let r := handleLPop args now st; (r.1, r.2, lb)
    | "SADD" => let r := handleSAdd args now st; (r.1, r.2, lb)
    | "SMEMBERS" => let r := handleSMembers args now st; (r.1, r.2, lb)
    | "SREM" => let r := handleSRem args now st; (r.1, r.2, lb)
    | "HSET" => let r := handleHSet args now st; (r.1, r.2, lb)
    | "HGET" => let r := handleHGet args now st; (r.1, r.2, lb)
    | "HDEL" => let r := handleHDel args now st; (r.1, r.2, lb)
    | "LBADD" => let r := handleLBAdd args lb; (r.1, st, r.2)
    | "LBTOP" => let r := handleLBTop args lb; (r.1, st, r.2)
    | "LRANGE" => let r := handleLRange args now st; (r.1, r.2, lb)
    | "QUIT" => (.status "OK", st, lb)
    | _ => (.err ("ERR unknown command " ++ cmd), st, lb)

/-! ### Protocol decoder (`readCommand`) -/

/-- The outcome of one `readCommand` call on a byte stream (bytes are
modelled as `Char`s).  `ioErr` is any read error (end of stream, short
read); `noCommand` is the `nil, nil` return for an empty inline line;
`panicked` is a Go runtime panic, which is NOT an error return — it unwinds
the goroutine and, being unrecovered, aborts the whole process. -/
inductive ReadResult where
  | ok (args : List String)
  | noCommand
  | protoErr (msg : String)
  | ioErr
  | panicked (msg : String)
  deriving DecidableEq, Repr

/-- `bufio.Reader.ReadString(byte 10)`: the line up to and including the
first newline, plus the remaining stream; `none` when the stream ends
first (a read error in the source). -/
def readLineCh : List Char → Option (List Char × List Char)
  | [] => none
  | c :: rest =>
    if c = '\n' then some ([c], rest)
    else (readLineCh rest).map (fun p => (c :: p.1, p.2))

/-- `strings.TrimSuffix(line, chr 13 ++ chr 10)`: drop a trailing CRLF pair
if and only if both characters are present. -/
def trimCRLF (l : List Char) : List Char :=
  match l.reverse with
  | '\n' :: '\r' :: rest => rest.reverse
  | _ => l

/-- The inline tokenizer loop of `readCommand` (source lines 209-226): split
on unquoted spaces; an unescaped double quote toggles quoting and is
dropped. -/
def inlineLoop (cs : List Char) (inQuote : Bool) (current : List Char)
    (parts : List String) : List String :=
  match cs with
  | [] => if current.isEmpty then parts else parts ++ [⟨current⟩]
  | r :: rest =>
    if r = ' ' ∧ inQuote = false then
      if current.isEmpty then inlineLoop rest inQuote [] parts
      else inlineLoop rest inQuote [] (parts ++ [⟨current⟩])
    else if r.toNat = 34 then inlineLoop rest (!inQuote) current parts
    else inlineLoop rest inQuote (current ++ [r]) parts

/-- The bulk-argument loop of `readCommand` (source lines 174-197): for each
of the `count` elements read a `$<len>` header line, then exactly `len`
payload bytes, then discard the 2-byte terminator.  A negative parsed length
reaches `make([]byte, bulkLen)`, which panics. -/
def readBulks : Nat → List Char → List String → ReadResult
  | 0, _, acc => .ok acc.reverse
  | n + 1, input, acc =>
    match readLineCh input with
    | none => .ioErr
    | some (line, rest) =>
      match trimCRLF line with
      | [] => .protoErr "protocol error: expected bulk string"
      | c :: lenChars =>
        if c.toNat ≠ 36 then .protoErr "protocol error: expected bulk string"
        else
          match goAtoi ⟨lenChars⟩ with
          | none => .protoErr "protocol error: invalid bulk length"
          | some len =>
            if len < 0 then .panicked "makeslice: len out of range"
            else if rest.length < len.toNat then .ioErr
            else
              let payload := rest.take len.toNat
              let rest2 := rest.drop len.toNat
              if rest2.length < 2 then .ioErr
              else readBulks n (rest2.drop 2) (String.mk payload :: acc)

/-- Go `readCommand`: peek the first byte; `*` selects RESP array framing
(count line, then `readBulks`; `make([]string, 0, count)` panics when the
count is negative), anything else selects the inline tokenizer (an empty
trimmed line is "no command"). -/
def readCommand (input : List Char) : ReadResult :=
  match input with
  | [] => .ioErr
  | c :: _ =>
    if c = '*' then
      match readLineCh input with
      | none => .ioErr
      | some (line, rest) =>
        match goAtoi ⟨(trimCRLF line).drop 1⟩ with
        | none => .protoErr "protocol error: invalid bulk count"
        | some count =>
          if count < 0 then .panicked "makeslice: cap out of range"
          else readBulks count.toNat rest []
    else
      match readLineCh input with
      | none => .ioErr
      | some (line, _) =>
        match trimCRLF line with
        | [] => .noCommand
        | l => .ok (inlineLoop l false [] [])

/-! ### Interleaved SADD (concurrency model) -/

/-- `sync.Map.Load` and `sync.Map.Store` are the only atomic points inside
`handleSAdd`; between a worker's load phase and its store phase any other
worker may run.  This store is the result of the schedule
`load₁; load₂; store₁; store₂` for two workers concurrently executing
`SADD k a` and `SADD k b` against an initially empty store. -/
def saddRaceState : Store :=
  let l1 := saddLoadPhase [] "k" 0
  let l2 := saddLoadPhase l1.1 "k" 0
  match l1.2, l2.2 with
  | some s1, some s2 =>
    let w1 := saddStorePhase l2.1 "k" ["a"] s1
    let w2 := saddStorePhase w1.1 "k" ["b"] s2
    w2.1
  | _, _ => []

/-- The number of members of the set stored at `k` (0 when absent or not a
set). -/
def setCardAt (st : Store) (k : String) : Nat :=
  match loadKey st k with
  | some e =>
    match e.value with
    | .set s => s.length
    | _ => 0
  | none => 0

/-- Modelled from the spec's words for LRANGE (to be compared with the
source's `lrangeSlice`): a negative index `i` resolves to `n + i`, both
resolved bounds are clamped into `[0, n-1]`, `start > stop` or a start
beyond the list gives an empty result, otherwise the elements from start
through stop inclusive. -/
def lrangeSpecList (l : List String) (start stop : Int) : List String :=
  let n : Int := l.length
  let s := max (if start < 0 then n + start else start) 0
  let e := min (max (if stop < 0 then n + stop else stop) 0) (n - 1)
  if n - 1 < s ∨ e < s then []
  else (l.drop s.toNat).take (e - s + 1).toNat

/-- The stored kind each type-checking command requires (commands without a
get-and-check type test — SET, DEL, TTL, the leaderboard commands, QUIT —
map to `none`). -/
def expectedKind (c : String) : Option DataType :=
  if c = "GET" then some .StringType
  else if c = "LPUSH" then some .ListType
  else if c = "LPOP" then some .ListType
  else if c = "LRANGE" then some .ListType
  else if c = "SADD" then some .SetType
  else if c = "SMEMBERS" then some .SetType
  else if c = "SREM" then some .SetType
  else if c = "HSET" then some .HashType
  else if c = "HGET" then some .HashType
  else if c = "HDEL" then some .HashType
  else none

/-- The guards a handler evaluates before its type check: its arity check,
and for LRANGE also the two index parses.  When these hold, a command on a
live key of the wrong kind reaches the WRONGTYPE branch. -/
def typeCheckReached (c : String) (args : List String) : Prop :=
  (c = "GET" → args.length = 2) ∧
  (c = "LPUSH" → 3 ≤ args.length) ∧
  (c = "LPOP" → args.length = 2) ∧
  (c = "LRANGE" → args.length = 4 ∧
    (goAtoi (args.getD 2 "")).isSome ∧ (goAtoi (args.getD 3 "")).isSome) ∧
  (c = "SADD" → 3 ≤ args.length) ∧
  (c = "SMEMBERS" → args.length = 2) ∧
  (c = "SREM" → 3 ≤ args.length) ∧
  (c = "HSET" → args.length = 4) ∧
  (c = "HGET" → args.length = 3) ∧
  (c = "HDEL" → 3 ≤ args.length)

/-- A value whose container is non-empty (strings qualify vacuously). -/
def containerOK : Value → Bool
  | .str _ => true
  | .list l => !l.isEmpty
  | .set s => !s.isEmpty
  | .hash h => !h.isEmpty

/-- The store retains no empty container: every List/Set/Hash entry holds at
least one element. -/
def goodStore (st : Store) : Prop :=
  ∀ p ∈ st, containerOK p.2.value = true

/-- The store entries DEL's reply counts: key listed and entry not
expired. -/
def delPred (now : Nat) (keys : List String) (p : String × Entry) : Bool :=
  keys.contains p.1 && !(p.2.isExpired now)

/-! ### Association-list lemmas -/

theorem loadKey_deleteKey (st : Store) (k k2 : String) :
    loadKey (deleteKey st k) k2 = if k2 = k then none else loadKey st k2 := by
  induction st with
  | nil => simp [loadKey, deleteKey]
  | cons p rest ih =>
    obtain ⟨k3, e⟩ := p
    simp only [deleteKey, loadKey]
    by_cases h3 : k3 = k
    · subst h3
      rw [if_pos rfl, ih]
      by_cases h2 : k2 = k3
      · simp [h2]
      · simp [h2, loadKey, show ¬k3 = k2 from fun hh => h2 hh.symm]
    · rw [if_neg h3]
      by_cases h32 : k3 = k2
      · subst h32
        simp [loadKey, show ¬k3 = k from h3]
      · simp [loadKey, h32, ih]

theorem loadKey_append (l1 l2 : Store) (k : String) :
    loadKey (l1 ++ l2) k =
      match loadKey l1 k with
      | some e => some e
      | none => loadKey l2 k := by
  induction l1 with
  | nil => simp [loadKey]
  | cons p rest ih =>
    obtain ⟨k3, e⟩ := p
    by_cases h : k3 = k <;> simp [loadKey, h, ih]

theorem loadKey_storeKey_self (st : Store) (k : String) (e : Entry) :
    loadKey (storeKey st k e) k = some e := by
  rw [storeKey, loadKey_append, loadKey_deleteKey]
  simp [loadKey]

theorem loadKey_storeKey_other (st : Store) (k k2 : String) (e : Entry)
    (h : k2 ≠ k) : loadKey (storeKey st k e) k2 = loadKey st k2 := by
  rw [storeKey, loadKey_append, loadKey_deleteKey, if_neg h]
  cases hv : loadKey st k2 <;>
    simp [loadKey, hv, show ¬k = k2 from fun hh => h hh.symm]

theorem lpushLoadPhase_other (st : Store) (key k2 : String) (now : Nat)
    (h : k2 ≠ key) :
    loadKey (lpushLoadPhase st key now).1 k2 = loadKey st k2 := by
  unfold lpushLoadPhase
  cases hl : loadKey st key with
  | none => simp
  | some e =>
    cases hv : e.value <;> by_cases he : e.isExpired now <;>
      simp [he, hv, loadKey_deleteKey, h]

/-- C1.  For every key and non-empty argument block `v :: vs`, LPUSH prepends
the block in front of the current list (empty when the key is absent or
expired) preserving its left-to-right order, and replies with the new length.
`lpushLoadPhase ... = some old` says the key is absent, expired, or holds the
list `old`. -/
theorem lpush_block_prepend (k v : String) (vs : List String) (now : Nat)
    (st : Store) (old : List String)
    (h : (lpushLoadPhase st k now).2 = some old) :
    (handleLPush ("LPUSH" :: k :: v :: vs) now st).1 =
        .int ((v :: vs).length + old.length) ∧
      loadKey (handleLPush ("LPUSH" :: k :: v :: vs) now st).2 k =
        some ⟨.list ((v :: vs) ++ old), 0⟩ ∧
      ∀ k2, k2 ≠ k →
        loadKey (handleLPush ("LPUSH" :: k :: v :: vs) now st).2 k2 =
          loadKey st k2 := by
  rcases hp : lpushLoadPhase st k now with ⟨st1, res⟩
  rw [hp] at h
  cases res with
  | none => simp at h
  | some l0 =>
    have hl : l0 = old := by simpa using h
    subst hl
    refine ⟨?_, ?_, ?_⟩
    · simp only [handleLPush, hp]
      congr 1
      push_cast [List.length_append]
      ring
    · simp only [handleLPush, hp]
      simpa using loadKey_storeKey_self st1 k ⟨.list (v :: (vs ++ l0)), 0⟩
    · intro k2 hk2
      have h2 := lpushLoadPhase_other st k k2 now hk2
      rw [hp] at h2
      simp only [handleLPush, hp]
      rw [loadKey_storeKey_other _ _ _ _ hk2]
      exact h2

/-- Witness for C1: `LPUSH mylist a b c` on an absent key replies `3` and
stores `["a", "b", "c"]` in that order. -/
theorem lpush_block_prepend_witness :
    (handleLPush ["LPUSH", "mylist", "a", "b", "c"] 0 []).1 = .int 3 ∧
      loadKey (handleLPush ["LPUSH", "mylist", "a", "b", "c"] 0 []).2
          "mylist" = some ⟨.list ["a", "b", "c"], 0⟩ := by
  have h := lpush_block_prepend "mylist" "a" ["b", "c"] 0 [] [] rfl
  exact ⟨h.1, by simpa using h.2.1⟩

/-- C10.  A successful LPUSH on a live List entry stores the new entry with a
zero (absent) expiration instant, discarding any previously set `expireAt`. -/
theorem lpush_clears_expiry (k v : String) (vs : List String) (now : Nat)
    (st : Store) (e : Entry) (l : List String)
    (hload : loadKey st k = some e) (hexp : e.isExpired now = false)
    (hlist : e.value = .list l) :
    loadKey (handleLPush ("LPUSH" :: k :: v :: vs) now st).2 k =
      some ⟨.list ((v :: vs) ++ l), 0⟩ := by
  simp only [handleLPush, lpushLoadPhase, hload, hexp, hlist,
    Bool.false_eq_true, if_false]
  simpa using loadKey_storeKey_self st k ⟨.list ((v :: vs) ++ l), 0⟩

/-- Witness for C10: a list entry with `expireAt = 500` loses its expiry on
LPUSH at `now = 3` (the entry is still live then). -/
theorem lpush_clears_expiry_witness :
    loadKey (handleLPush ["LPUSH", "k", "x"]
        3 [("k", ⟨.list ["y"], 500⟩)]).2 "k" = some ⟨.list ["x", "y"], 0⟩ :=
  lpush_clears_expiry "k" "x" [] 3 [("k", ⟨.list ["y"], 500⟩)]
    ⟨.list ["y"], 500⟩ ["y"] rfl rfl rfl

/-- C2 (the code contradicts the claim).  A bulk length of `-1` — a malformed
length header — passes `strconv.Atoi` and reaches `make([]byte, bulkLen)`,
which panics, and a negative array count likewise reaches
`make([]string, 0, count)`: the decoder does not return a protocol error
there but crashes (an unrecovered panic aborts the whole process, not just
the connection). -/
theorem readCommand_panics_on_negative_length :
    readCommand ("*1\r\n$-1\r\n\r\n".data) =
        .panicked "makeslice: len out of range" ∧
      readCommand ("*-1\r\n".data) = .panicked "makeslice: cap out of range" ∧
      readCommand ("*x\r\n".data) =
        .protoErr "protocol error: invalid bulk count" :=
  ⟨rfl, rfl, rfl⟩

/-- C3 (the code contradicts the claim).  Two workers concurrently running
`SADD k a` and `SADD k b` on an absent key `k`, interleaved as
load₁; load₂; store₁; store₂ — each of the four is an individually atomic
`sync.Map` access, and no lock or compare-and-swap serializes the
load-mutate-store sequence — leave a set with exactly 1 member, not the 2
members the claim requires; the same two commands run sequentially do leave
2 members. -/
theorem sadd_concurrent_lost_update :
    setCardAt saddRaceState "k" = 1 ∧
      setCardAt saddRaceState "k" ≠ 2 ∧
      setCardAt
        (handleSAdd ["SADD", "k", "b"] 0
          (handleSAdd ["SADD", "k", "a"] 0 []).2).2 "k" = 2 := by
  refine ⟨rfl, by decide, rfl⟩

/-- C8.  LBADD parses the score (a non-integer argument is an error with no
mutation of the leaderboard), saturates it into `[0, 10000]` — the source's
two-sided `if` chain equals clamping by `max 0 (min s 10000)` — and
unconditionally stores/overwrites the user's entry, replying `+OK`. -/
theorem lbadd_clamp_and_store (user scoreStr : String) (lb : LB) :
    (goAtoi scoreStr = none →
      handleLBAdd ["LBADD", user, scoreStr] lb =
        (.err "ERR score must be an integer", lb)) ∧
    ∀ s, goAtoi scoreStr = some s →
      handleLBAdd ["LBADD", user, scoreStr] lb =
        (.status "OK", lbStore lb user (max 0 (min s 10000))) := by
  constructor
  · intro h
    simp [handleLBAdd, h]
  · intro s h
    simp only [handleLBAdd, h]
    have hc : (if 10000 < s then (10000 : Int) else if s < 0 then 0 else s) =
        max 0 (min s 10000) := by
      split_ifs <;> omega
    rw [hc]

/-- Witness for C8: `LBADD dave 999999` saturates to `10000`, and
`LBADD eve -5` saturates to `0`. -/
theorem lbadd_clamp_and_store_witness :
    handleLBAdd ["LBADD", "dave", "999999"] [] =
        (.status "OK", [("dave", 10000)]) ∧
      handleLBAdd ["LBADD", "eve", "-5"] [] = (.status "OK", [("eve", 0)]) :=
  ⟨((lbadd_clamp_and_store "dave" "999999" []).2 999999 rfl).trans rfl,
    ((lbadd_clamp_and_store "eve" "-5" []).2 (-5) rfl).trans rfl⟩

/-- C7.  LBTOP with a positive integer argument `n` replies with the sorted
entries — score descending, ties by user ascending, which is exactly
pairwise `lbLe` order on a permutation of the leaderboard — truncated to
`min n count` and flattened as `[user1, score1, user2, score2, ...]` with
scores in decimal; a non-integer or non-positive `n` is an error. -/
theorem lbtop_ranking (nStr : String) (lb : LB) :
    (∀ n, goAtoi nStr = some n → 0 < n →
        handleLBTop ["LBTOP", nStr] lb =
          (.array (flattenLB ((lbSort lb).take (min n.toNat lb.length))),
            lb)) ∧
      (∀ n, goAtoi nStr = some n → n ≤ 0 →
        handleLBTop ["LBTOP", nStr] lb =
          (.err "ERR N must be a positive integer", lb)) ∧
      (goAtoi nStr = none →
        handleLBTop ["LBTOP", nStr] lb =
          (.err "ERR N must be a positive integer", lb)) ∧
      List.Perm (lbSort lb) lb ∧ List.Sorted lbLe (lbSort lb) := by
  refine ⟨?_, ?_, ?_, List.perm_insertionSort lbLe lb,
    List.sorted_insertionSort lbLe lb⟩
  · intro n h hpos
    simp [handleLBTop, h, show ¬n ≤ 0 by omega]
  · intro n h hle
    simp [handleLBTop, h, hle]
  · intro h
    simp [handleLBTop, h]

/-- Witness for C7: the spec's own example — after `LBADD alice 50` and
`LBADD bob 70`, `LBTOP 2` replies `["bob", "70", "alice", "50"]`. -/
theorem lbtop_ranking_witness :
    handleLBTop ["LBTOP", "2"] [("alice", 50), ("bob", 70)] =
      (.array [.bulk "bob", .bulk "70", .bulk "alice", .bulk "50"],
        [("alice", 50), ("bob", 70)]) :=
  ((lbtop_ranking "2" [("alice", 50), ("bob", 70)]).1 2 rfl
    (by omega)).trans rfl

theorem lrangeSlice_eq_spec (l : List String) (a b : Int) :
    lrangeSlice l a b = lrangeSpecList l a b := by
  simp only [lrangeSlice, lrangeSpecList]
  split_ifs <;> try rfl
  all_goals try omega
  all_goals congr 2 <;> omega

/-- C5.  LRANGE resolves a negative index `i` to `n + i`, clamps both
resolved bounds into `[0, n-1]`, replies an empty array when the resolved
start exceeds the stop or lies beyond the list (and when the key is absent
or expired), and otherwise replies the elements from start through stop
inclusive. -/
theorem lrange_index_semantics (k a b : String) (start stop : Int)
    (now : Nat) (st : Store)
    (ha : goAtoi a = some start) (hb : goAtoi b = some stop) :
    (handleLRange ["LRANGE", k, a, b] now st).1 =
      match loadKey st k with
      | none => .array []
      | some e =>
        if e.isExpired now then .array []
        else
          match e.value with
          | .list l => .array ((lrangeSpecList l start stop).map .bulk)
          | _ => wrongTypeErr := by
  simp only [handleLRange, ha, hb]
  cases loadKey st k with
  | none => rfl
  | some e =>
    by_cases he : e.isExpired now
    · simp [he]
    · cases hv : e.value <;> simp [he, hv, lrangeSlice_eq_spec]

/-- Witness for C5: the spec's example — `LRANGE mylist 0 -1` on
`["a", "b", "c"]` replies the whole list. -/
theorem lrange_index_semantics_witness :
    (handleLRange ["LRANGE", "mylist", "0", "-1"] 0
        [("mylist", ⟨.list ["a", "b", "c"], 0⟩)]).1 =
      .array [.bulk "a", .bulk "b", .bulk "c"] :=
  (lrange_index_semantics "mylist" "0" "-1" 0 (-1) 0
      [("mylist", ⟨.list ["a", "b", "c"], 0⟩)] rfl rfl).trans rfl

theorem loadKey_eq_none_iff (st : Store) (k : String) :
    loadKey st k = none ↔ ∀ p ∈ st, p.1 ≠ k := by
  induction st with
  | nil => simp [loadKey]
  | cons p rest ih =>
    obtain ⟨k2, e⟩ := p
    by_cases h : k2 = k <;> simp [loadKey, h, ih]

theorem deleteKey_eq_self (st : Store) (k : String)
    (h : ∀ p ∈ st, p.1 ≠ k) : deleteKey st k = st := by
  induction st with
  | nil => rfl
  | cons p rest ih =>
    obtain ⟨k2, e⟩ := p
    have h2 : k2 ≠ k := h (k2, e) (by simp)
    simp only [deleteKey, if_neg h2]
    rw [ih (fun q hq => h q (by simp [hq]))]

theorem deleteKey_sublist (st : Store) (k : String) :
    (deleteKey st k).Sublist st := by
  induction st with
  | nil => simp [deleteKey]
  | cons p rest ih =>
    obtain ⟨k2, e⟩ := p
    by_cases h : k2 = k
    · simpa [deleteKey, h] using ih.cons (k2, e)
    · simpa [deleteKey, h] using ih.cons₂ (k2, e)

theorem deleteKey_keysNodup (st : Store) (k : String)
    (h : (st.map Prod.fst).Nodup) : ((deleteKey st k).map Prod.fst).Nodup :=
  h.sublist ((deleteKey_sublist st k).map Prod.fst)

/-- `delPred` for `k :: rest` agrees with `delPred` for `rest` on pairs
whose key is not `k`. -/
theorem delPred_cons_of_ne (now : Nat) (k : String) (rest : List String)
    (q : String × Entry) (h : q.1 ≠ k) :
    delPred now (k :: rest) q = delPred now rest q := by
  unfold delPred
  have hb : (q.1 == k) = false := by simpa using h
  simp [List.contains_cons, hb, h]

theorem delPred_cons_self (now : Nat) (k : String) (rest : List String)
    (e : Entry) : delPred now (k :: rest) (k, e) = !(e.isExpired now) := by
  unfold delPred
  simp [List.contains_cons]

/-- The per-key decomposition of DEL's count: in a duplicate-free store, the
entries whose key is listed in `k0 :: rest` and not expired split into the
`k0` entry (if live) and the remaining listed entries after `k0` is
removed. -/
theorem delCount_cons (now : Nat) (k0 : String) (rest : List String)
    (st : Store) (hnd : (st.map Prod.fst).Nodup) :
    (st.filter (delPred now (k0 :: rest))).length =
      (match loadKey st k0 with
        | none => 0
        | some e => if e.isExpired now then 0 else 1) +
        ((deleteKey st k0).filter (delPred now rest)).length := by
  induction st with
  | nil => simp [loadKey, deleteKey]
  | cons p st2 ih =>
    obtain ⟨k, e⟩ := p
    simp only [List.map_cons, List.nodup_cons] at hnd
    obtain ⟨hk, hnd2⟩ := hnd
    have hnotin : ∀ q ∈ st2, q.1 ≠ k := by
      intro q hq hEq
      exact hk (hEq ▸ List.mem_map_of_mem Prod.fst hq)
    by_cases h : k = k0
    · subst h
      have hdel : deleteKey st2 k = st2 := deleteKey_eq_self st2 k hnotin
      have hcongr : st2.filter (delPred now (k :: rest)) =
          st2.filter (delPred now rest) :=
        List.filter_congr fun q hq => delPred_cons_of_ne now k rest q (hnotin q hq)
      simp only [loadKey, if_pos rfl, deleteKey, hdel, List.filter_cons,
        delPred_cons_self]
      by_cases hex : e.isExpired now <;> simp [hex, hcongr] <;> omega
    · have hload : loadKey ((k, e) :: st2) k0 = loadKey st2 k0 := by
        simp [loadKey, h]
      rw [hload]
      simp only [deleteKey, if_neg h, List.filter_cons,
        delPred_cons_of_ne now k0 rest (k, e) h]
      by_cases hc : delPred now rest (k, e) = true
      · simp only [hc, if_pos, List.length_cons]
        rw [ih hnd2]
        generalize (match loadKey st2 k0 with
          | none => 0
          | some e => if e.isExpired now = true then 0 else 1) = m
        omega
      · simp only [hc, if_neg, Bool.not_eq_true]
        rw [ih hnd2]

theorem foldDel_count (now : Nat) (keys : List String) :
    ∀ (st : Store) (c : Nat), (st.map Prod.fst).Nodup →
      (keys.foldl (delStep now) (st, c)).2 =
        c + (st.filter (delPred now keys)).length := by
  induction keys with
  | nil => intro st c _; simp [delPred]
  | cons k0 rest ih =>
    intro st c hnd
    simp only [List.foldl_cons]
    rw [delCount_cons now k0 rest st hnd]
    cases hl : loadKey st k0 with
    | none =>
      have hstep : delStep now (st, c) k0 = (st, c) := by
        unfold delStep; rw [hl]
      have hnone : ∀ q ∈ st, q.1 ≠ k0 := (loadKey_eq_none_iff st k0).mp hl
      rw [hstep, ih st c hnd, deleteKey_eq_self st k0 hnone]
      simp
    | some e =>
      by_cases hex : e.isExpired now
      · have hstep : delStep now (st, c) k0 = (deleteKey st k0, c) := by
          unfold delStep; rw [hl]; simp [hex]
        rw [hstep, ih _ c (deleteKey_keysNodup st k0 hnd)]
        simp [hex]
      · have hstep : delStep now (st, c) k0 = (deleteKey st k0, c + 1) := by
          unfold delStep; rw [hl]; simp [hex]
        rw [hstep, ih _ (c + 1) (deleteKey_keysNodup st k0 hnd)]
        simp [hex]; omega

theorem foldDel_loadKey (now : Nat) (keys : List String) :
    ∀ (st : Store) (c : Nat) (k : String),
      loadKey (keys.foldl (delStep now) (st, c)).1 k =
        if k ∈ keys then none else loadKey st k := by
  induction keys with
  | nil => intro st c k; simp
  | cons k0 rest ih =>
    intro st c k
    simp only [List.foldl_cons]
    rw [ih]
    have hstep : ∀ c2, loadKey (delStep now (st, c2) k0).1 k =
        if k = k0 then none else loadKey st k := by
      intro c2
      unfold delStep
      cases hl : loadKey st k0 with
      | none =>
        by_cases he : k = k0
        · subst he; simp [hl]
        · simp [he]
      | some e =>
        by_cases hex : e.isExpired now <;>
          simp [hex, loadKey_deleteKey]
    by_cases hk : k ∈ rest
    · simp [hk]
    · rw [if_neg hk, hstep c]
      by_cases he : k = k0
      · subst he; simp
      · simp [he, hk]

/-- C6.  DEL removes every listed key that is present — expired or not — and
the reply counts exactly the store entries with a listed key that were not
expired (so expired entries are removed silently); unlisted keys are
untouched.  The store is assumed duplicate-free, which every handler
maintains. -/
theorem del_removes_and_counts (k0 : String) (ks : List String) (now : Nat)
    (st : Store) (hnd : (st.map Prod.fst).Nodup) :
    (handleDel ("DEL" :: k0 :: ks) now st).1 =
        .int (st.filter (delPred now (k0 :: ks))).length ∧
      (∀ k, k ∈ k0 :: ks →
        loadKey (handleDel ("DEL" :: k0 :: ks) now st).2 k = none) ∧
      ∀ k, k ∉ k0 :: ks →
        loadKey (handleDel ("DEL" :: k0 :: ks) now st).2 k = loadKey st k := by
  refine ⟨?_, ?_, ?_⟩
  · simp only [handleDel]
    rw [foldDel_count now (k0 :: ks) st 0 hnd]
    simp
  · intro k hk
    simp only [handleDel]
    rw [foldDel_loadKey now (k0 :: ks) st 0 k, if_pos hk]
  · intro k hk
    simp only [handleDel]
    rw [foldDel_loadKey now (k0 :: ks) st 0 k, if_neg hk]

/-- Witness for C6: `DEL a b missing` on a store where `a` is live and `b`
is expired at `now = 10` replies `1` (only `a` counts) and removes both. -/
theorem del_removes_and_counts_witness :
    (handleDel ["DEL", "a", "b", "missing"] 10
        [("a", ⟨.str "x", 0⟩), ("b", ⟨.str "y", 5⟩), ("c", ⟨.str "z", 0⟩)]).1 =
        .int 1 ∧
      loadKey (handleDel ["DEL", "a", "b", "missing"] 10
        [("a", ⟨.str "x", 0⟩), ("b", ⟨.str "y", 5⟩),
          ("c", ⟨.str "z", 0⟩)]).2 "b" = none := by
  have h := del_removes_and_counts "a" ["b", "missing"] 10
    [("a", ⟨.str "x", 0⟩), ("b", ⟨.str "y", 5⟩), ("c", ⟨.str "z", 0⟩)]
    (by decide)
  exact ⟨h.1.trans (by rfl), h.2.1 "b" (by decide)⟩

theorem handleGet_wrongtype (a key : String) (now : Nat) (st : Store)
    (e : Entry) (hload : loadKey st key = some e)
    (hexp : e.isExpired now = false) (hkind : e.value.kind ≠ .StringType) :
    handleGet [a, key] now st = (wrongTypeErr, st) := by
  simp only [handleGet, hload, hexp, Bool.false_eq_true, if_false]
  cases hv : e.value <;> simp [Value.kind, hv] at hkind ⊢

theorem handleLPush_wrongtype (a key v : String) (vs : List String)
    (now : Nat) (st : Store) (e : Entry) (hload : loadKey st key = some e)
    (hexp : e.isExpired now = false) (hkind : e.value.kind ≠ .ListType) :
    handleLPush (a :: key :: v :: vs) now st = (wrongTypeErr, st) := by
  simp only [handleLPush, lpushLoadPhase, hload, hexp, Bool.false_eq_true,
    if_false]
  cases hv : e.value <;> simp [Value.kind, hv] at hkind ⊢

theorem handleLPop_wrongtype (a key : String) (now : Nat) (st : Store)
    (e : Entry) (hload : loadKey st key = some e)
    (hexp : e.isExpired now = false) (hkind : e.value.kind ≠ .ListType) :
    handleLPop [a, key] now st = (wrongTypeErr, st) := by
  simp only [handleLPop, hload, hexp, Bool.false_eq_true, if_false]
  cases hv : e.value <;> simp [Value.kind, hv] at hkind ⊢

theorem handleLRange_wrongtype (a key x y : String) (now : Nat) (st : Store)
    (e : Entry) (sx sy : Int) (hx : goAtoi x = some sx)
    (hy : goAtoi y = some sy) (hload : loadKey st key = some e)
    (hexp : e.isExpired now = false) (hkind : e.value.kind ≠ .ListType) :
    handleLRange [a, key, x, y] now st = (wrongTypeErr, st) := by
  simp only [handleLRange, hx, hy, hload, hexp, Bool.false_eq_true, if_false]
  cases hv : e.value <;> simp [Value.kind, hv] at hkind ⊢

theorem handleSAdd_wrongtype (a key m : String) (ms : List String)
    (now : Nat) (st : Store) (e : Entry) (hload : loadKey st key = some e)
    (hexp : e.isExpired now = false) (hkind : e.value.kind ≠ .SetType) :
    handleSAdd (a :: key :: m :: ms) now st = (wrongTypeErr, st) := by
  simp only [handleSAdd, saddLoadPhase, hload, hexp, Bool.false_eq_true,
    if_false]
  cases hv : e.value <;> simp [Value.kind, hv] at hkind ⊢

theorem handleSMembers_wrongtype (a key : String) (now : Nat) (st : Store)
    (e : Entry) (hload : loadKey st key = some e)
    (hexp : e.isExpired now = false) (hkind : e.value.kind ≠ .SetType) :
    handleSMembers [a, key] now st = (wrongTypeErr, st) := by
  simp only [handleSMembers, hload, hexp, Bool.false_eq_true, if_false]
  cases hv : e.value <;> simp [Value.kind, hv] at hkind ⊢

theorem handleSRem_wrongtype (a key m : String) (ms : List String)
    (now : Nat) (st : Store) (e : Entry) (hload : loadKey st key = some e)
    (hexp : e.isExpired now = false) (hkind : e.value.kind ≠ .SetType) :
    handleSRem (a :: key :: m :: ms) now st = (wrongTypeErr, st) := by
  simp only [handleSRem, hload, hexp, Bool.false_eq_true, if_false]
  cases hv : e.value <;> simp [Value.kind, hv] at hkind ⊢

theorem handleHSet_wrongtype (a key f v : String) (now : Nat) (st : Store)
    (e : Entry) (hload : loadKey st key = some e)
    (hexp : e.isExpired now = false) (hkind : e.value.kind ≠ .HashType) :
    handleHSet [a, key, f, v] now st = (wrongTypeErr, st) := by
  simp only [handleHSet, hsetLoadPhase, hload, hexp, Bool.false_eq_true,
    if_false]
  cases hv : e.value <;> simp [Value.kind, hv] at hkind ⊢

theorem handleHGet_wrongtype (a key f : String) (now : Nat) (st : Store)
    (e : Entry) (hload : loadKey st key = some e)
    (hexp : e.isExpired now = false) (hkind : e.value.kind ≠ .HashType) :
    handleHGet [a, key, f] now st = (wrongTypeErr, st) := by
  simp only [handleHGet, hload, hexp, Bool.false_eq_true, if_false]
  cases hv : e.value <;> simp [Value.kind, hv] at hkind ⊢

theorem handleHDel_wrongtype (a key f : String) (fs : List String)
    (now : Nat) (st : Store) (e : Entry) (hload : loadKey st key = some e)
    (hexp : e.isExpired now = false) (hkind : e.value.kind ≠ .HashType) :
    handleHDel (a :: key :: f :: fs) now st = (wrongTypeErr, st) := by
  simp only [handleHDel, hload, hexp, Bool.false_eq_true, if_false]
  cases hv : e.value <;> simp [Value.kind, hv] at hkind ⊢

/-- C4.  Any command with a get-and-check type test, applied (past its
arity/parse guards) to a target key holding a live entry of a different
kind, replies WRONGTYPE and leaves the whole store — and the leaderboard —
exactly unchanged: the conflicting key is neither mutated nor deleted and
its value and expiration survive. -/
theorem wrongtype_reply_no_mutation (cmd key : String) (rest : List String)
    (now : Nat) (st : Store) (lb : LB) (kd : DataType) (e : Entry)
    (hk : expectedKind (goToUpper cmd) = some kd)
    (hr : typeCheckReached (goToUpper cmd) (cmd :: key :: rest))
    (hload : loadKey st key = some e)
    (hexp : e.isExpired now = false)
    (hkind : e.value.kind ≠ kd) :
    dispatch (cmd :: key :: rest) now (st, lb) = (wrongTypeErr, (st, lb)) := by
  obtain ⟨hGET, hLPUSH, hLPOP, hLRANGE, hSADD, hSMEMBERS, hSREM, hHSET,
    hHGET, hHDEL⟩ := hr
  by_cases c1 : goToUpper cmd = "GET"
  · rw [c1] at hk
    simp [expectedKind] at hk
    subst hk
    have hrest : rest = [] := by have h2 := hGET c1; simpa using h2
    subst hrest
    simp [dispatch, c1, handleGet_wrongtype cmd key now st e hload hexp hkind]
  by_cases c2 : goToUpper cmd = "LPUSH"
  · rw [c2] at hk
    simp [expectedKind] at hk
    subst hk
    obtain ⟨v, vs, hrest⟩ : ∃ v vs, rest = v :: vs := by
      cases rest with
      | nil => have h2 := hLPUSH c2; simp at h2
      | cons v vs => exact ⟨v, vs, rfl⟩
    subst hrest
    simp [dispatch, c2,
      handleLPush_wrongtype cmd key v vs now st e hload hexp hkind]
  by_cases c3 : goToUpper cmd = "LPOP"
  · rw [c3] at hk
    simp [expectedKind] at hk
    subst hk
    have hrest : rest = [] := by have h2 := hLPOP c3; simpa using h2
    subst hrest
    simp [dispatch, c3, handleLPop_wrongtype cmd key now st e hload hexp hkind]
  by_cases c4 : goToUpper cmd = "LRANGE"
  · rw [c4] at hk
    simp [expectedKind] at hk
    subst hk
    obtain ⟨hlen, hpx, hpy⟩ := hLRANGE c4
    obtain ⟨x, y, hrest⟩ : ∃ x y, rest = [x, y] := by
      cases rest with
      | nil => simp at hlen
      | cons x rest2 =>
        cases rest2 with
        | nil => simp at hlen
        | cons y rest3 =>
          cases rest3 with
          | nil => exact ⟨x, y, rfl⟩
          | cons z rest4 => simp at hlen
    subst hrest
    obtain ⟨sx, hx⟩ := Option.isSome_iff_exists.mp hpx
    obtain ⟨sy, hy⟩ := Option.isSome_iff_exists.mp hpy
    simp only [List.getD] at hx hy
    simp [dispatch, c4,
      handleLRange_wrongtype cmd key x y now st e sx sy
        (by simpa using hx) (by simpa using hy) hload hexp hkind]
  by_cases c5 : goToUpper cmd = "SADD"
  · rw [c5] at hk
    simp [expectedKind] at hk
    subst hk
    obtain ⟨m, ms, hrest⟩ : ∃ m ms, rest = m :: ms := by
      cases rest with
      | nil => have h2 := hSADD c5; simp at h2
      | cons m ms => exact ⟨m, ms, rfl⟩
    subst hrest
    simp [dispatch, c5,
      handleSAdd_wrongtype cmd key m ms now st e hload hexp hkind]
  by_cases c6 : goToUpper cmd = "SMEMBERS"
  · rw [c6] at hk
    simp [expectedKind] at hk
    subst hk
    have hrest : rest = [] := by have h2 := hSMEMBERS c6; simpa using h2
    subst hrest
    simp [dispatch, c6,
      handleSMembers_wrongtype cmd key now st e hload hexp hkind]
  by_cases c7 : goToUpper cmd = "SREM"
  · rw [c7] at hk
    simp [expectedKind] at hk
    subst hk
    obtain ⟨m, ms, hrest⟩ : ∃ m ms, rest = m :: ms := by
      cases rest with
      | nil => have h2 := hSREM c7; simp at h2
      | cons m ms => exact ⟨m, ms, rfl⟩
    subst hrest
    simp [dispatch, c7,
      handleSRem_wrongtype cmd key m ms now st e hload hexp hkind]
  by_cases c8 : goToUpper cmd = "HSET"
  · rw [c8] at hk
    simp [expectedKind] at hk
    subst hk
    obtain ⟨f, v, hrest⟩ : ∃ f v, rest = [f, v] := by
      have hlen := hHSET c8
      cases rest with
      | nil => simp at hlen
      | cons f rest2 =>
        cases rest2 with
        | nil => simp at hlen
        | cons v rest3 =>
          cases rest3 with
          | nil => exact ⟨f, v, rfl⟩
          | cons w rest4 => simp at hlen
    subst hrest
    simp [dispatch, c8,
      handleHSet_wrongtype cmd key f v now st e hload hexp hkind]
  by_cases c9 : goToUpper cmd = "HGET"
  · rw [c9] at hk
    simp [expectedKind] at hk
    subst hk
    obtain ⟨f, hrest⟩ : ∃ f, rest = [f] := by
      have hlen := hHGET c9
      cases rest with
      | nil => simp at hlen
      | cons f rest2 =>
        cases rest2 with
        | nil => exact ⟨f, rfl⟩
        | cons w rest3 => simp at hlen
    subst hrest
    simp [dispatch, c9,
      handleHGet_wrongtype cmd key f now st e hload hexp hkind]
  by_cases c10 : goToUpper cmd = "HDEL"
  · rw [c10] at hk
    simp [expectedKind] at hk
    subst hk
    obtain ⟨f, fs, hrest⟩ : ∃ f fs, rest = f :: fs := by
      cases rest with
      | nil => have h2 := hHDEL c10; simp at h2
      | cons f fs => exact ⟨f, fs, rfl⟩
    subst hrest
    simp [dispatch, c10,
      handleHDel_wrongtype cmd key f fs now st e hload hexp hkind]
  · exact absurd hk (by simp [expectedKind, c1, c2, c3, c4, c5, c6, c7, c8,
      c9, c10])

/-- Witness for C4: the spec's example — after `SET k v`, `LPUSH k x` is a
WRONGTYPE error and leaves the string entry untouched. -/
theorem wrongtype_reply_no_mutation_witness :
    dispatch ["LPUSH", "k", "x"] 0 ([("k", ⟨.str "v", 0⟩)], []) =
      (wrongTypeErr, ([("k", ⟨.str "v", 0⟩)], [])) :=
  wrongtype_reply_no_mutation "LPUSH" "k" ["x"] 0 [("k", ⟨.str "v", 0⟩)] []
    .ListType ⟨.str "v", 0⟩ (by decide)
    (by unfold typeCheckReached; decide) rfl rfl (by decide)

theorem goodStore_deleteKey (st : Store) (k : String) (h : goodStore st) :
    goodStore (deleteKey st k) := fun p hp =>
  h p ((deleteKey_sublist st k).subset hp)

theorem goodStore_storeKey (st : Store) (k : String) (e : Entry)
    (h : goodStore st) (he : containerOK e.value = true) :
    goodStore (storeKey st k e) := by
  intro p hp
  rcases List.mem_append.mp hp with h1 | h1
  · exact goodStore_deleteKey st k h p h1
  · have h2 := List.mem_singleton.mp h1
    subst h2
    simpa using he

theorem saddFold_ne_nil (mems : List String) (p : List String × Nat)
    (h : p.1 ≠ [] ∨ mems ≠ []) : (mems.foldl saddInsert p).1 ≠ [] := by
  induction mems generalizing p with
  | nil => simpa using h.resolve_right (by simp)
  | cons m rest ih =>
    simp only [List.foldl_cons]
    apply ih
    left
    unfold saddInsert
    split_ifs with hm
    · exact List.ne_nil_of_mem hm
    · simp

theorem hashSet_ne_nil (h : List (String × String)) (f v : String) :
    hashSet h f v ≠ [] := by
  cases h with
  | nil => simp [hashSet]
  | cons q rest =>
    obtain ⟨f2, v2⟩ := q
    by_cases hf : f2 = f <;> simp [hashSet, hf]

theorem goodStore_handleGet (args : List String) (now : Nat) (st : Store)
    (h : goodStore st) : goodStore (handleGet args now st).2 := by
  unfold handleGet
  repeat' split
  any_goals exact h
  all_goals exact goodStore_deleteKey _ _ h

theorem goodStore_handleSet (args : List String) (now : Nat) (st : Store)
    (h : goodStore st) : goodStore (handleSet args now st).2 := by
  unfold handleSet
  repeat' split
  any_goals exact h
  all_goals exact goodStore_storeKey _ _ _ h rfl

theorem goodStore_foldDel (now : Nat) (keys : List String) :
    ∀ (st : Store) (c : Nat), goodStore st →
      goodStore ((keys.foldl (delStep now) (st, c)).1) := by
  induction keys with
  | nil => intro st c h; exact h
  | cons k rest ih =>
    intro st c h
    simp only [List.foldl_cons]
    cases hl : loadKey st k with
    | none =>
      have hstep : delStep now (st, c) k = (st, c) := by
        unfold delStep; rw [hl]
      rw [hstep]; exact ih st c h
    | some e =>
      by_cases hex : e.isExpired now
      · have hstep : delStep now (st, c) k = (deleteKey st k, c) := by
          unfold delStep; rw [hl]; simp [hex]
        rw [hstep]; exact ih _ _ (goodStore_deleteKey _ _ h)
      · have hstep : delStep now (st, c) k = (deleteKey st k, c + 1) := by
          unfold delStep; rw [hl]; simp [hex]
        rw [hstep]; exact ih _ _ (goodStore_deleteKey _ _ h)

theorem goodStore_handleDel (args : List String) (now : Nat) (st : Store)
    (h : goodStore st) : goodStore (handleDel args now st).2 := by
  unfold handleDel
  repeat' split
  any_goals exact h
  all_goals exact goodStore_foldDel now _ st 0 h

theorem goodStore_handleTTL (args : List String) (now : Nat) (st : Store)
    (h : goodStore st) : goodStore (handleTTL args now st).2 := by
  unfold handleTTL
  repeat' split
  any_goals exact h
  all_goals exact goodStore_deleteKey _ _ h

theorem goodStore_lpushLoadPhase (st : Store) (key : String) (now : Nat)
    (h : goodStore st) : goodStore (lpushLoadPhase st key now).1 := by
  unfold lpushLoadPhase
  repeat' split
  any_goals exact h
  all_goals exact goodStore_deleteKey _ _ h

theorem goodStore_saddLoadPhase (st : Store) (key : String) (now : Nat)
    (h : goodStore st) : goodStore (saddLoadPhase st key now).1 := by
  unfold saddLoadPhase
  repeat' split
  any_goals exact h
  all_goals exact goodStore_deleteKey _ _ h

theorem goodStore_hsetLoadPhase (st : Store) (key : String) (now : Nat)
    (h : goodStore st) : goodStore (hsetLoadPhase st key now).1 := by
  unfold hsetLoadPhase
  repeat' split
  any_goals exact h
  all_goals exact goodStore_deleteKey _ _ h

theorem goodStore_handleLPush (args : List String) (now : Nat) (st : Store)
    (h : goodStore st) : goodStore (handleLPush args now st).2 := by
  unfold handleLPush
  split
  · rename_i a key v vs
    rcases hp : lpushLoadPhase st key now with ⟨st1, res⟩
    have h1 : goodStore st1 := by
      have h2 := goodStore_lpushLoadPhase st key now h
      rwa [hp] at h2
    cases res with
    | none => simp only [hp]; exact h1
    | some l0 => simp only [hp]; exact goodStore_storeKey _ _ _ h1 rfl
  · exact h

theorem goodStore_handleLPop (args : List String) (now : Nat) (st : Store)
    (h : goodStore st) : goodStore (handleLPop args now st).2 := by
  unfold handleLPop
  repeat' split
  any_goals exact h
  any_goals exact goodStore_deleteKey _ _ h
  all_goals refine goodStore_storeKey _ _ _ h ?_
  all_goals simp_all [containerOK]

theorem goodStore_handleSAdd (args : List String) (now : Nat) (st : Store)
    (h : goodStore st) : goodStore (handleSAdd args now st).2 := by
  unfold handleSAdd
  split
  · rename_i a key m ms
    rcases hp : saddLoadPhase st key now with ⟨st1, res⟩
    have h1 : goodStore st1 := by
      have h2 := goodStore_saddLoadPhase st key now h
      rwa [hp] at h2
    cases res with
    | none => simp only [hp]; exact h1
    | some s0 =>
      simp only [hp, saddStorePhase]
      refine goodStore_storeKey _ _ _ h1 ?_
      have hne := saddFold_ne_nil (m :: ms) (s0, 0) (Or.inr (by simp))
      simpa [containerOK] using hne
  · exact h

theorem goodStore_handleSMembers (args : List String) (now : Nat)
    (st : Store) (h : goodStore st) :
    goodStore (handleSMembers args now st).2 := by
  unfold handleSMembers
  repeat' split
  any_goals exact h
  all_goals exact goodStore_deleteKey _ _ h

theorem goodStore_handleSRem (args : List String) (now : Nat) (st : Store)
    (h : goodStore st) : goodStore (handleSRem args now st).2 := by
  unfold handleSRem
  split
  · rename_i a key m ms
    cases hl : loadKey st key with
    | none => exact h
    | some e =>
      by_cases hex : e.isExpired now
      · simp only [hl, hex, if_true]
        exact goodStore_deleteKey _ _ h
      · cases hv : e.value with
        | set s0 =>
          simp only [hl, hex, hv, Bool.false_eq_true, if_false]
          by_cases hemp : ((m :: ms).foldl sremStep (s0, 0)).1.isEmpty
          · simp only [hemp, if_true]
            exact goodStore_deleteKey _ _ h
          · simp only [hemp, Bool.false_eq_true, if_false]
            refine goodStore_storeKey _ _ _ h ?_
            simp_all [containerOK]
        | str s2 => simp only [hl, hex, hv, Bool.false_eq_true, if_false]; exact h
        | list l2 => simp only [hl, hex, hv, Bool.false_eq_true, if_false]; exact h
        | hash h2 => simp only [hl, hex, hv, Bool.false_eq_true, if_false]; exact h
  · exact h

theorem goodStore_handleHSet (args : List String) (now : Nat) (st : Store)
    (h : goodStore st) : goodStore (handleHSet args now st).2 := by
  unfold handleHSet
  split
  · rename_i a key f v
    rcases hp : hsetLoadPhase st key now with ⟨st1, res⟩
    have h1 : goodStore st1 := by
      have h2 := goodStore_hsetLoadPhase st key now h
      rwa [hp] at h2
    cases res with
    | none => simp only [hp]; exact h1
    | some h0 =>
      simp only [hp]
      refine goodStore_storeKey _ _ _ h1 ?_
      simpa [containerOK] using hashSet_ne_nil h0 f v
  · exact h

theorem goodStore_handleHGet (args : List String) (now : Nat) (st : Store)
    (h : goodStore st) : goodStore (handleHGet args now st).2 := by
  unfold handleHGet
  repeat' split
  any_goals exact h
  all_goals exact goodStore_deleteKey _ _ h

theorem goodStore_handleHDel (args : List String) (now : Nat) (st : Store)
    (h : goodStore st) : goodStore (handleHDel args now st).2 := by
  unfold handleHDel
  split
  · rename_i a key f fs
    cases hl : loadKey st key with
    | none => exact h
    | some e =>
      by_cases hex : e.isExpired now
      · simp only [hl, hex, if_true]
        exact goodStore_deleteKey _ _ h
      · cases hv : e.value with
        | hash h0 =>
          simp only [hl, hex, hv, Bool.false_eq_true, if_false]
          by_cases hemp : ((f :: fs).foldl hdelStep (h0, 0)).1.isEmpty
          · simp only [hemp, if_true]
            exact goodStore_deleteKey _ _ h
          · simp only [hemp, Bool.false_eq_true, if_false]
            refine goodStore_storeKey _ _ _ h ?_
            simp_all [containerOK]
        | str s2 => simp only [hl, hex, hv, Bool.false_eq_true, if_false]; exact h
        | list l2 => simp only [hl, hex, hv, Bool.false_eq_true, if_false]; exact h
        | set s2 => simp only [hl, hex, hv, Bool.false_eq_true, if_false]; exact h
  · exact h

theorem goodStore_handleLRange (args : List String) (now : Nat) (st : Store)
    (h : goodStore st) : goodStore (handleLRange args now st).2 := by
  unfold handleLRange
  repeat' split
  any_goals exact h
  all_goals exact goodStore_deleteKey _ _ h

/-- C9.  No operation ever leaves an empty container in the store: if every
List/Set/Hash entry holds at least one element before a dispatched command,
the same holds afterwards — structural operations that empty their container
(`LPOP`, `SREM`, `HDEL`) delete the key instead of storing an empty
container, so a later read sees the key as absent. -/
theorem store_never_retains_empty_container (args : List String) (now : Nat)
    (st : Store) (lb : LB) (h : goodStore st) :
    goodStore (dispatch args now (st, lb)).2.1 := by
  cases args with
  | nil => exact h
  | cons cmd rest =>
    simp only [dispatch]
    split
    all_goals first
      | exact h
      | exact goodStore_handleGet _ _ _ h
      | exact goodStore_handleSet _ _ _ h
      | exact goodStore_handleDel _ _ _ h
      | exact goodStore_handleTTL _ _ _ h
      | exact goodStore_handleLPush _ _ _ h
      | exact goodStore_handleLPop _ _ _ h
      | exact goodStore_handleSAdd _ _ _ h
      | exact goodStore_handleSMembers _ _ _ h
      | exact goodStore_handleSRem _ _ _ h
      | exact goodStore_handleHSet _ _ _ h
      | exact goodStore_handleHGet _ _ _ h
      | exact goodStore_handleHDel _ _ _ h
      | exact goodStore_handleLRange _ _ _ h

/-- Witness for C9: the spec's example — `SREM s m` on the one-member set
`{m}` leaves a store satisfying the no-empty-container invariant (the key
is in fact deleted). -/
theorem store_never_retains_empty_container_witness :
    goodStore (dispatch ["SREM", "s", "m"] 0
      ([("s", ⟨.set ["m"], 0⟩)], [])).2.1 :=
  store_never_retains_empty_container ["SREM", "s", "m"] 0
    [("s", ⟨.set ["m"], 0⟩)] [] (by unfold goodStore; decide)

end RedisEasy
